import Mathlib

/-!
Shallow embedding of the CCSDS packet decoder (Go package ccsds, file
ccsds/ccsds.go). Byte streams are lists of naturals; each element of a
well-formed stream is a byte, below 256. Go machine integers are modelled as
naturals, with an explicit mod 2^16 where the Go code does uint16 arithmetic
that may wrap. The decoder state is the remaining stream, threaded explicitly.
-/

/-- A decoded CCSDS packet: the Go struct Packet. The Go field names are kept,
except that the Go field Type is called PType here, because Type is a Lean
keyword. Go field types: Version, PType, SequenceFlags are uint8; APID,
SequenceCount, DataLen are uint16; SecondaryHdr is bool; Data is a byte slice. -/
structure Packet where
  Version : Nat
  PType : Nat
  SecondaryHdr : Bool
  APID : Nat
  SequenceFlags : Nat
  SequenceCount : Nat
  DataLen : Nat
  Data : List Nat
  deriving DecidableEq

/-- The error values the Go code can produce from a bytes source:
io.EOF (eof) and io.ErrUnexpectedEOF (unexpectedEOF). -/
inductive GoErr where
  | eof
  | unexpectedEOF
  deriving DecidableEq

/-- binary.BigEndian.Uint16 on two bytes: the high byte shifted left by 8,
bitwise-or the low byte. -/
def u16be (hi lo : Nat) : Nat := (hi <<< 8) ||| lo

/-- io.ReadFull on a list-of-bytes source: on success returns the n bytes read
(the prefix) together with the remaining stream; an empty source yields eof, and
a non-empty but too-short source is drained and yields unexpectedEOF. -/
def readFull (r : List Nat) (n : Nat) : Except GoErr (List Nat) × List Nat :=
  if n ≤ r.length then (.ok (r.take n), r.drop n)
  else if r.length = 0 then (.error .eof, [])
  else (.error .unexpectedEOF, [])

/-- Decoder.ReadPacket: reads a 6-byte primary header, decodes the bit-packed
fields by mask-and-shift, computes DataLen as the big-endian 16-bit length
field plus one in uint16 arithmetic (hence the mod 65536), and, when DataLen is
positive, reads DataLen payload bytes; otherwise the payload is left empty.
Errors from either read pass through unchanged (the Go code re-returns io.EOF
verbatim from the header read and propagates every other error as is).
Returns the result paired with the remaining stream. -/
def ReadPacket (r : List Nat) : Except GoErr Packet × List Nat :=
  match readFull r 6 with
  | (.error e, r₁) => (.error e, r₁)
  | (.ok header, r₁) =>
    let b0 := header.getD 0 0
    let b1 := header.getD 1 0
    let b2 := header.getD 2 0
    let b3 := header.getD 3 0
    let b4 := header.getD 4 0
    let b5 := header.getD 5 0
    let dataLen := (u16be b4 b5 + 1) % 65536
    let pkt : Packet :=
      { Version := (b0 &&& 0xE0) >>> 5
        PType := (b0 &&& 0x10) >>> 4
        SecondaryHdr := (b0 &&& 0x08) != 0
        APID := u16be (b0 &&& 0x07) b1
        SequenceFlags := (b2 &&& 0xC0) >>> 6
        SequenceCount := u16be (b2 &&& 0x3F) b3
        DataLen := dataLen
        Data := [] }
    if dataLen > 0 then
      match readFull r₁ dataLen with
      | (.error e, r₂) => (.error e, r₂)
      | (.ok payload, r₂) => (.ok { pkt with Data := payload }, r₂)
    else
      (.ok pkt, r₁)

/-- The loop body of Decoder.ReadAllPackets, with a fuel argument making the
recursion structural; ReadAllPackets supplies enough fuel (each successful
ReadPacket consumes at least the 6 header bytes, so length-many steps more than
suffice). The loop stops cleanly on eof (errors.Is(err, io.EOF)) returning the
packets collected so far with no error, and stops on any other error returning
the packets collected so far together with that error. -/
def ReadAllPacketsFuel : Nat → List Nat → List Packet × Option GoErr
  | 0, _ => ([], none)
  | fuel + 1, r =>
    match ReadPacket r with
    | (.error .eof, _) => ([], none)
    | (.error e, _) => ([], some e)
    | (.ok pkt, r₁) =>
      let rest := ReadAllPacketsFuel fuel r₁
      (pkt :: rest.1, rest.2)

/-- Decoder.ReadAllPackets on a byte stream. -/
def ReadAllPackets (r : List Nat) : List Packet × Option GoErr :=
  ReadAllPacketsFuel (r.length + 1) r

/-- n successive calls of Decoder.ReadPacket on the same decoder, collecting the
n results in order and threading the remaining stream. -/
def ReadPacketsN : Nat → List Nat → List (Except GoErr Packet) × List Nat
  | 0, r => ([], r)
  | n + 1, r =>
    let step := ReadPacket r
    let rest := ReadPacketsN n step.2
    (step.1 :: rest.1, rest.2)

/-- The data-length field as ReadPacket computes it from bytes 4 and 5 of the
stream: big-endian 16-bit value plus one, wrapped by the uint16 store. -/
def dlen (r : List Nat) : Nat := (u16be (r.getD 4 0) (r.getD 5 0) + 1) % 65536

/-- The packet that a successful ReadPacket call on stream r produces, written
out field by field: used to characterise ReadPacket in the lemmas below. -/
def mkPacket (r : List Nat) : Packet :=
  { Version := (r.getD 0 0 &&& 0xE0) >>> 5
    PType := (r.getD 0 0 &&& 0x10) >>> 4
    SecondaryHdr := (r.getD 0 0 &&& 0x08) != 0
    APID := u16be (r.getD 0 0 &&& 0x07) (r.getD 1 0)
    SequenceFlags := (r.getD 2 0 &&& 0xC0) >>> 6
    SequenceCount := u16be (r.getD 2 0 &&& 0x3F) (r.getD 3 0)
    DataLen := dlen r
    Data := (r.drop 6).take (dlen r) }

/-- A byte list that is one complete packet frame on the wire: a 6-byte header
followed by exactly the number of payload bytes the header promises. -/
def IsFrame (c : List Nat) : Prop :=
  6 ≤ c.length ∧ c.length = 6 + dlen c

/-- Every element of the stream is a byte. -/
def IsBytes (r : List Nat) : Prop := ∀ b ∈ r, b < 256

instance (c : List Nat) : Decidable (IsFrame c) := by
  unfold IsFrame
  infer_instance

instance (r : List Nat) : Decidable (IsBytes r) := by
  unfold IsBytes
  infer_instance

theorem lor8 (a b : Nat) (hb : b < 256) : (a <<< 8) ||| b = a * 256 + b := by
  apply Nat.eq_of_testBit_eq
  intro j
  have h256 : (256 : Nat) = 2 ^ 8 := by norm_num
  have hb' : b < 2 ^ 8 := h256 ▸ hb
  rw [Nat.testBit_lor, Nat.testBit_shiftLeft a, mul_comm, h256,
    Nat.testBit_mul_pow_two_add a hb' j]
  by_cases hj : j < 8
  · simp [hj, Nat.not_le.mpr hj]
  · have hge : j ≥ 8 := Nat.not_lt.mp hj
    simp [hj, hge,
      Nat.testBit_lt_two_pow (Nat.lt_of_lt_of_le hb' (Nat.pow_le_pow_right (by norm_num) hge))]

theorem u16be_eq (hi lo : Nat) (hlo : lo < 256) : u16be hi lo = hi * 256 + lo :=
  lor8 hi lo hlo

theorem u16be_lt (hi lo : Nat) (hhi : hi < 256) (hlo : lo < 256) : u16be hi lo < 65536 := by
  rw [u16be_eq hi lo hlo]; omega

theorem getD_take {l : List Nat} {i n : Nat} (h : i < n) :
    (l.take n).getD i 0 = l.getD i 0 := by
  simp [List.getD_eq_getElem?_getD, List.getElem?_take, h]

theorem getD_lt_of_bytes {r : List Nat} (hb : IsBytes r) (i : Nat) : r.getD i 0 < 256 := by
  by_cases h : i < r.length
  · rw [List.getD_eq_getElem r 0 h]
    exact hb _ (List.getElem_mem h)
  · rw [List.getD_eq_default r 0 (Nat.le_of_not_lt h)]
    omega

theorem getD_append_left {l₁ l₂ : List Nat} {i : Nat} (h : i < l₁.length) :
    (l₁ ++ l₂).getD i 0 = l₁.getD i 0 := by
  simp [List.getD_eq_getElem?_getD, List.getElem?_append, h]

/-- ReadPacket succeeds exactly when the stream holds a full header and the
promised payload, and then it returns mkPacket and consumes 6 + dlen bytes. -/
theorem ReadPacket_ok_char {r : List Nat} (h6 : 6 ≤ r.length)
    (hd : 6 + dlen r ≤ r.length) :
    ReadPacket r = (.ok (mkPacket r), (r.drop 6).drop (dlen r)) := by
  have hi0 : 0 < r.length := by omega
  have hi1 : 1 < r.length := by omega
  have hi2 : 2 < r.length := by omega
  have hi3 : 3 < r.length := by omega
  have hi4 : 4 < r.length := by omega
  have hi5 : 5 < r.length := by omega
  have e0 : r.getD 0 0 = r[0] := List.getD_eq_getElem r 0 hi0
  have e1 : r.getD 1 0 = r[1] := List.getD_eq_getElem r 0 hi1
  have e2 : r.getD 2 0 = r[2] := List.getD_eq_getElem r 0 hi2
  have e3 : r.getD 3 0 = r[3] := List.getD_eq_getElem r 0 hi3
  have e4 : r.getD 4 0 = r[4] := List.getD_eq_getElem r 0 hi4
  have e5 : r.getD 5 0 = r[5] := List.getD_eq_getElem r 0 hi5
  have f0 : r[0]? = some r[0] := List.getElem?_eq_getElem hi0
  have f1 : r[1]? = some r[1] := List.getElem?_eq_getElem hi1
  have f2 : r[2]? = some r[2] := List.getElem?_eq_getElem hi2
  have f3 : r[3]? = some r[3] := List.getElem?_eq_getElem hi3
  have f4 : r[4]? = some r[4] := List.getElem?_eq_getElem hi4
  have f5 : r[5]? = some r[5] := List.getElem?_eq_getElem hi5
  have hdlE : dlen r = (u16be r[4] r[5] + 1) % 65536 := by rw [dlen, e4, e5]
  rcases Nat.eq_zero_or_pos (dlen r) with h0 | hpos
  · simp [ReadPacket, readFull, h6, mkPacket, getD_take, e0, e1, e2, e3, e4, e5,
      f0, f1, f2, f3, f4, f5, ← hdlE, h0]
  · have hle : dlen r ≤ r.length - 6 := by omega
    simp [ReadPacket, readFull, h6, mkPacket, getD_take, e0, e1, e2, e3, e4, e5,
      f0, f1, f2, f3, f4, f5, ← hdlE, hle, hpos]

/-- ReadPacket on a stream shorter than the 6-byte header: eof on an empty
stream, unexpectedEOF on 1 to 5 bytes. -/
theorem ReadPacket_short {r : List Nat} (h : r.length < 6) :
    ReadPacket r = (.error (if r.length = 0 then GoErr.eof else .unexpectedEOF), []) := by
  have h' : ¬ 6 ≤ r.length := by omega
  by_cases h0 : r.length = 0
  · simp [ReadPacket, readFull, h', h0]
  · simp [ReadPacket, readFull, h', h0]

/-- ReadPacket when the 6-byte header is complete but the payload promised by
the decoded length field is not all there: eof when exactly the header was
present (zero payload bytes available), unexpectedEOF otherwise. -/
theorem ReadPacket_shortPayload {r : List Nat} (h6 : 6 ≤ r.length)
    (hs : r.length < 6 + dlen r) :
    ReadPacket r = (.error (if r.length = 6 then GoErr.eof else .unexpectedEOF), []) := by
  have hi4 : 4 < r.length := by omega
  have hi5 : 5 < r.length := by omega
  have e4 : r.getD 4 0 = r[4] := List.getD_eq_getElem r 0 hi4
  have e5 : r.getD 5 0 = r[5] := List.getD_eq_getElem r 0 hi5
  have hdlE : dlen r = (u16be r[4] r[5] + 1) % 65536 := by rw [dlen, e4, e5]
  have hpos : 0 < dlen r := by omega
  have hgt : ¬ dlen r ≤ r.length - 6 := by omega
  have hne : ¬ dlen r = 0 := by omega
  by_cases h0 : r.length = 6
  · have hz : r.length - 6 = 0 := by omega
    simp [ReadPacket, readFull, h6, e4, e5, ← hdlE, hpos, hgt, hz, h0, hne]
  · have hz : ¬ r.length - 6 = 0 := by omega
    simp [ReadPacket, readFull, h6, e4, e5, ← hdlE, hpos, hgt, hz, h0, hne]

/-- Inversion: a successful ReadPacket call means the stream held a full header
plus payload, the packet is mkPacket, and 6 + dlen bytes were consumed. -/
theorem ReadPacket_ok_inv {r r' : List Nat} {p : Packet}
    (h : ReadPacket r = (.ok p, r')) :
    6 ≤ r.length ∧ 6 + dlen r ≤ r.length ∧ p = mkPacket r ∧ r' = (r.drop 6).drop (dlen r) := by
  by_cases h6 : 6 ≤ r.length
  · by_cases hd : 6 + dlen r ≤ r.length
    · rw [ReadPacket_ok_char h6 hd] at h
      injection h with hA hB
      injection hA with hA'
      exact ⟨h6, hd, hA'.symm, hB.symm⟩
    · rw [ReadPacket_shortPayload h6 (by omega)] at h
      injection h with hA hB
      exact absurd hA (by simp)
  · rw [ReadPacket_short (by omega)] at h
    injection h with hA hB
    exact absurd hA (by simp)

/-- A successful ReadPacket call strictly shrinks the remaining stream. -/
theorem ReadPacket_ok_len {r r' : List Nat} {p : Packet}
    (h : ReadPacket r = (.ok p, r')) : r'.length < r.length := by
  obtain ⟨h6, hd, -, hr'⟩ := ReadPacket_ok_inv h
  subst hr'
  simp only [List.length_drop]
  omega

/-- The fuel argument of ReadAllPacketsFuel is irrelevant once it exceeds the
stream length. -/
theorem ReadAllPacketsFuel_congr (f₁ : Nat) :
    ∀ (f₂ : Nat) (r : List Nat), r.length < f₁ → r.length < f₂ →
      ReadAllPacketsFuel f₁ r = ReadAllPacketsFuel f₂ r := by
  induction f₁ with
  | zero => intro f₂ r h₁ h₂; omega
  | succ f ih =>
    intro f₂ r h₁ h₂
    obtain ⟨g, rfl⟩ : ∃ g, f₂ = g + 1 := ⟨f₂ - 1, by omega⟩
    rcases hrp : ReadPacket r with ⟨res, rest⟩
    rcases res with e | pkt
    · cases e <;> simp [ReadAllPacketsFuel, hrp]
    · have hlt : rest.length < r.length := ReadPacket_ok_len hrp
      simp only [ReadAllPacketsFuel, hrp]
      rw [ih g rest (by omega) (by omega)]

/-- Unfolding ReadAllPackets one step on a successful first packet. -/
theorem ReadAllPackets_cons {r rest : List Nat} {p : Packet}
    (h : ReadPacket r = (.ok p, rest)) :
    ReadAllPackets r = (p :: (ReadAllPackets rest).1, (ReadAllPackets rest).2) := by
  have hlt := ReadPacket_ok_len h
  show ReadAllPacketsFuel (r.length + 1) r = _
  simp only [ReadAllPacketsFuel, h]
  rw [ReadAllPacketsFuel_congr r.length (rest.length + 1) rest (by omega) (by omega)]
  rfl

/-- ReadAllPackets stops cleanly when the first call reports eof. -/
theorem ReadAllPackets_eof {r rest : List Nat}
    (h : ReadPacket r = (.error .eof, rest)) : ReadAllPackets r = ([], none) := by
  simp [ReadAllPackets, ReadAllPacketsFuel, h]

/-- ReadAllPackets surfaces any non-eof error from the first call. -/
theorem ReadAllPackets_error {r rest : List Nat} {e : GoErr}
    (h : ReadPacket r = (.error e, rest)) (hne : e ≠ .eof) :
    ReadAllPackets r = ([], some e) := by
  cases e
  · exact absurd rfl hne
  · simp [ReadAllPackets, ReadAllPacketsFuel, h]

/-- The decoded length field only depends on the first 6 bytes. -/
theorem dlen_append {c r : List Nat} (h : 6 ≤ c.length) : dlen (c ++ r) = dlen c := by
  unfold dlen
  rw [getD_append_left (by omega), getD_append_left (by omega)]

/-- Parsing a complete frame is unaffected by the bytes that follow it. -/
theorem mkPacket_append {c r : List Nat} (hf : IsFrame c) :
    mkPacket (c ++ r) = mkPacket c := by
  obtain ⟨h6, hlen⟩ := hf
  have hdl : dlen (c ++ r) = dlen c := dlen_append h6
  have hdrop : (c.drop 6).length = dlen c := by simp only [List.length_drop]; omega
  unfold mkPacket
  rw [hdl, getD_append_left (by omega), getD_append_left (by omega),
    getD_append_left (by omega), getD_append_left (by omega),
    List.drop_append_of_le_length h6, List.take_left' hdrop, ← hdrop, List.take_length]

/-- ReadPacket consumes exactly one complete frame from the front of the
stream and decodes it to mkPacket of the frame. -/
theorem ReadPacket_frame {c r : List Nat} (hf : IsFrame c) :
    ReadPacket (c ++ r) = (.ok (mkPacket c), r) := by
  obtain ⟨h6, hlen⟩ := hf
  have hdl : dlen (c ++ r) = dlen c := dlen_append h6
  have h6' : 6 ≤ (c ++ r).length := by simp only [List.length_append]; omega
  have hd : 6 + dlen (c ++ r) ≤ (c ++ r).length := by
    simp only [List.length_append, hdl]; omega
  have hdrop : (c.drop 6).length = dlen c := by simp only [List.length_drop]; omega
  rw [ReadPacket_ok_char h6' hd, mkPacket_append ⟨h6, hlen⟩, hdl,
    List.drop_append_of_le_length h6, List.drop_left' hdrop]

theorem ReadPacketsN_zero (r : List Nat) : ReadPacketsN 0 r = ([], r) := rfl

theorem ReadPacketsN_succ (n : Nat) (r : List Nat) :
    ReadPacketsN (n + 1) r =
      ((ReadPacket r).1 :: (ReadPacketsN n (ReadPacket r).2).1,
        (ReadPacketsN n (ReadPacket r).2).2) := rfl

/-- Repeated ReadPacket calls on an exhausted stream keep returning eof and
leave the stream exhausted. -/
theorem ReadPacketsN_nil (k : Nat) :
    ReadPacketsN k [] = (List.replicate k (Except.error GoErr.eof), []) := by
  induction k with
  | zero => rfl
  | succ n ih =>
    rw [ReadPacketsN_succ]
    have hrp : ReadPacket [] = (.error .eof, []) := rfl
    rw [hrp]
    simp [ih, List.replicate_succ]

/-- C1 counterexample: on the header 00 00 00 00 FF FF, whose wire length
field is 0xFFFF, ReadPacket returns a packet whose DataLen is 0 rather than
65536 — the uint16 store wraps — and 0 lies outside [1, 65536]. -/
theorem C1_counterexample :
    (ReadPacket [0, 0, 0, 0, 255, 255]).1 =
      .ok { Version := 0, PType := 0, SecondaryHdr := false, APID := 0,
            SequenceFlags := 0, SequenceCount := 0, DataLen := 0, Data := [] } ∧
    (0 : Nat) ≠ 65535 + 1 ∧ ¬ 1 ≤ (0 : Nat) :=
  ⟨rfl, by decide, by decide⟩

/-- C1 amended: for every packet returned by ReadPacket, DataLen equals the
16-bit big-endian wire value of bytes 4-5 plus one reduced mod 2^16 (the Go
DataLen field is a uint16, so a wire value of 0xFFFF wraps to 0), hence
DataLen lies in [0, 65535]; whenever the wire value is below 0xFFFF no wrap
occurs and DataLen = wire + 1 lies in [1, 65535]. -/
theorem C1_datalen_mod {r r' : List Nat} {p : Packet}
    (h : ReadPacket r = (.ok p, r')) :
    p.DataLen = (u16be (r.getD 4 0) (r.getD 5 0) + 1) % 65536 ∧
    p.DataLen ≤ 65535 ∧
    (u16be (r.getD 4 0) (r.getD 5 0) < 65535 →
      p.DataLen = u16be (r.getD 4 0) (r.getD 5 0) + 1 ∧ 1 ≤ p.DataLen) := by
  obtain ⟨-, -, hp, -⟩ := ReadPacket_ok_inv h
  subst hp
  refine ⟨rfl, ?_, fun hlt => ⟨?_, ?_⟩⟩
  · have := Nat.mod_lt (u16be (r.getD 4 0) (r.getD 5 0) + 1)
      (y := 65536) (by norm_num)
    show dlen r ≤ 65535
    unfold dlen
    omega
  · show dlen r = _
    unfold dlen
    rw [Nat.mod_eq_of_lt (by omega)]
  · show 1 ≤ dlen r
    unfold dlen
    rw [Nat.mod_eq_of_lt (by omega)]
    omega

/-- Witness for C1 amended: header 00 00 00 00 00 02 gives DataLen 3 = wire+1. -/
theorem C1_witness :
    (mkPacket [0, 0, 0, 0, 0, 2, 9, 9, 9]).DataLen = u16be 0 2 + 1 ∧
      1 ≤ (mkPacket [0, 0, 0, 0, 0, 2, 9, 9, 9]).DataLen := by
  have hok : ReadPacket [0, 0, 0, 0, 0, 2, 9, 9, 9] =
      (.ok (mkPacket [0, 0, 0, 0, 0, 2, 9, 9, 9]), []) := rfl
  have h := C1_datalen_mod hok
  exact h.2.2 (by decide)

/-- C2 counterexample: the wire length field 0xFFFF produces a successfully
returned packet with an empty payload, so the skip-when-zero branch does take
effect for this input and the payload length is not the wire value plus one. -/
theorem C2_counterexample :
    (ReadPacket [0, 0, 0, 0, 255, 255]).1 =
      .ok { Version := 0, PType := 0, SecondaryHdr := false, APID := 0,
            SequenceFlags := 0, SequenceCount := 0, DataLen := 0, Data := [] } ∧
    ([] : List Nat).length ≠ 65535 + 1 :=
  ⟨rfl, by decide⟩

/-- C2 amended: every returned packet's payload has exactly DataLen =
(wire + 1) mod 2^16 bytes; when the wire value is below 0xFFFF the payload has
wire + 1 bytes and is nonempty — in particular a wire value of 0 makes the
decoder read exactly 1 payload byte — while a wire value of 0xFFFF yields an
empty payload via the skip-when-zero branch. -/
theorem C2_payload_len {r r' : List Nat} {p : Packet}
    (h : ReadPacket r = (.ok p, r')) :
    p.Data.length = p.DataLen ∧
    (u16be (r.getD 4 0) (r.getD 5 0) < 65535 →
      p.Data.length = u16be (r.getD 4 0) (r.getD 5 0) + 1 ∧ p.Data ≠ []) ∧
    (u16be (r.getD 4 0) (r.getD 5 0) = 0 → p.Data.length = 1) ∧
    (u16be (r.getD 4 0) (r.getD 5 0) = 65535 → p.Data = []) := by
  obtain ⟨h6, hd, hp, -⟩ := ReadPacket_ok_inv h
  subst hp
  have hlen : ((r.drop 6).take (dlen r)).length = dlen r := by
    simp only [List.length_take, List.length_drop]
    omega
  have hmod : ∀ x : Nat, x < 65535 → (x + 1) % 65536 = x + 1 := fun x hx =>
    Nat.mod_eq_of_lt (by omega)
  refine ⟨hlen, fun hlt => ⟨?_, ?_⟩, fun h0 => ?_, fun hw => ?_⟩
  · show ((r.drop 6).take (dlen r)).length = _
    rw [hlen]
    unfold dlen
    exact hmod _ hlt
  · have hpos : 0 < ((r.drop 6).take (dlen r)).length := by
      rw [hlen]
      unfold dlen
      rw [hmod _ hlt]
      omega
    exact List.ne_nil_of_length_pos hpos
  · show ((r.drop 6).take (dlen r)).length = 1
    rw [hlen]
    unfold dlen
    rw [h0]
  · show (r.drop 6).take (dlen r) = []
    have h0 : dlen r = 0 := by
      unfold dlen
      rw [hw]
    rw [h0, List.take_zero]

/-- Witness for C2 amended: wire value 0 reads exactly one payload byte. -/
theorem C2_witness : (mkPacket [0, 0, 0, 0, 0, 0, 7]).Data.length = 1 := by
  have hok : ReadPacket [0, 0, 0, 0, 0, 0, 7] =
      (.ok (mkPacket [0, 0, 0, 0, 0, 0, 7]), []) := rfl
  have h := C2_payload_len hok
  exact h.2.2.1 (by decide)

/-- C3 counterexample: the stream 00 00 00 00 00 00 is a fully parsed 6-byte
header promising 1 payload byte with the source then exhausted, yet ReadPacket
returns the clean eof value (io.ReadFull reports io.EOF when zero payload
bytes are available), and ReadAllPackets treats this input as clean
termination rather than a truncated-payload error. -/
theorem C3_counterexample :
    ReadPacket [0, 0, 0, 0, 0, 0] = (.error .eof, []) ∧
      ReadAllPackets [0, 0, 0, 0, 0, 0] = ([], none) :=
  ⟨rfl, rfl⟩

/-- C3 amended: after a fully parsed 6-byte header whose promised payload
exceeds the remaining bytes, ReadPacket returns the truncation error
unexpectedEOF — distinct from eof — whenever at least one payload byte was
available; but when zero payload bytes were available it returns the clean
eof value, and ReadAllPackets then treats the input as clean termination. -/
theorem C3_truncation {r : List Nat} (h6 : 6 ≤ r.length)
    (hs : r.length < 6 + dlen r) :
    (6 < r.length →
      (ReadPacket r).1 = .error .unexpectedEOF ∧ GoErr.unexpectedEOF ≠ .eof) ∧
    (r.length = 6 →
      ReadPacket r = (.error .eof, []) ∧ ReadAllPackets r = ([], none)) := by
  have h := ReadPacket_shortPayload h6 hs
  constructor
  · intro hgt
    refine ⟨?_, by decide⟩
    rw [h, if_neg (show ¬ r.length = 6 by omega)]
  · intro he
    rw [if_pos he] at h
    exact ⟨h, ReadAllPackets_eof h⟩

/-- Witness for C3 amended: 6-byte header promising 2 bytes, 1 available. -/
theorem C3_witness : (ReadPacket [0, 0, 0, 0, 0, 1, 5]).1 = .error .unexpectedEOF := by
  have h := C3_truncation (r := [0, 0, 0, 0, 0, 1, 5]) (by decide) (by decide)
  exact (h.1 (by decide)).1

/-- C4: for every packet successfully decoded from a byte stream, the header
fields are exactly the stated mask-and-shift expressions — in particular
apid = ((byte0 &&& 0b0000 0111) <<< 8) ||| byte1 and
sequenceCount = ((byte2 &&& 0b0011 1111) <<< 8) ||| byte3 — and the decoded
values satisfy version ∈ [0,7], type ∈ {0,1}, apid ∈ [0,2047],
sequenceFlags ∈ [0,3], sequenceCount ∈ [0,16383]. -/
theorem C4_header_fields {r r' : List Nat} {p : Packet} (hb : IsBytes r)
    (h : ReadPacket r = (.ok p, r')) :
    p.Version = (r.getD 0 0 &&& 0xE0) >>> 5 ∧
    p.PType = (r.getD 0 0 &&& 0x10) >>> 4 ∧
    p.SecondaryHdr = ((r.getD 0 0 &&& 0x08) != 0) ∧
    p.APID = ((r.getD 0 0 &&& 0x07) <<< 8) ||| r.getD 1 0 ∧
    p.SequenceFlags = (r.getD 2 0 &&& 0xC0) >>> 6 ∧
    p.SequenceCount = ((r.getD 2 0 &&& 0x3F) <<< 8) ||| r.getD 3 0 ∧
    p.Version ≤ 7 ∧ p.PType ≤ 1 ∧ p.APID ≤ 2047 ∧
    p.SequenceFlags ≤ 3 ∧ p.SequenceCount ≤ 16383 := by
  obtain ⟨h6, hd, hp, -⟩ := ReadPacket_ok_inv h
  subst hp
  have hmask : ∀ m : Nat, r.getD 0 0 &&& m ≤ m := fun m => Nat.and_le_right
  have hb1 : r.getD 1 0 < 256 := getD_lt_of_bytes hb 1
  have hb3 : r.getD 3 0 < 256 := getD_lt_of_bytes hb 3
  refine ⟨rfl, rfl, rfl, rfl, rfl, rfl, ?_, ?_, ?_, ?_, ?_⟩
  · show (r.getD 0 0 &&& 0xE0) >>> 5 ≤ 7
    rw [Nat.shiftRight_eq_div_pow]
    exact Nat.le_trans (Nat.div_le_div_right (hmask 0xE0)) (by norm_num)
  · show (r.getD 0 0 &&& 0x10) >>> 4 ≤ 1
    rw [Nat.shiftRight_eq_div_pow]
    exact Nat.le_trans (Nat.div_le_div_right (hmask 0x10)) (by norm_num)
  · show u16be (r.getD 0 0 &&& 0x07) (r.getD 1 0) ≤ 2047
    rw [u16be_eq _ _ hb1]
    have := hmask 0x07
    omega
  · show (r.getD 2 0 &&& 0xC0) >>> 6 ≤ 3
    rw [Nat.shiftRight_eq_div_pow]
    exact Nat.le_trans (Nat.div_le_div_right Nat.and_le_right) (by norm_num)
  · show u16be (r.getD 2 0 &&& 0x3F) (r.getD 3 0) ≤ 16383
    rw [u16be_eq _ _ hb3]
    have : r.getD 2 0 &&& 0x3F ≤ 0x3F := Nat.and_le_right
    omega

/-- Witness for C4 on the canonical fixture bytes. -/
theorem C4_witness :
    (mkPacket [8, 1, 63, 255, 0, 2, 222, 173, 190]).APID = ((8 &&& 7) <<< 8) ||| 1 ∧
      (mkPacket [8, 1, 63, 255, 0, 2, 222, 173, 190]).SequenceCount ≤ 16383 := by
  have hok : ReadPacket [8, 1, 63, 255, 0, 2, 222, 173, 190] =
      (.ok (mkPacket [8, 1, 63, 255, 0, 2, 222, 173, 190]), []) := rfl
  have h := C4_header_fields (by decide) hok
  exact ⟨h.2.2.2.1, h.2.2.2.2.2.2.2.2.2.2⟩

/-- C5: the canonical fixture 08 01 3F FF 00 02 DE AD BE decodes to exactly
the stated packet, and ReadAllPackets on the fixture repeated twice returns
exactly two packets with those field values. -/
theorem C5_fixture :
    ReadPacket [0x08, 0x01, 0x3F, 0xFF, 0x00, 0x02, 0xDE, 0xAD, 0xBE] =
      (.ok { Version := 0, PType := 0, SecondaryHdr := true, APID := 1,
             SequenceFlags := 0, SequenceCount := 0x3FFF, DataLen := 3,
             Data := [0xDE, 0xAD, 0xBE] }, []) ∧
    ReadAllPackets [0x08, 0x01, 0x3F, 0xFF, 0x00, 0x02, 0xDE, 0xAD, 0xBE,
        0x08, 0x01, 0x3F, 0xFF, 0x00, 0x02, 0xDE, 0xAD, 0xBE] =
      ([{ Version := 0, PType := 0, SecondaryHdr := true, APID := 1,
          SequenceFlags := 0, SequenceCount := 0x3FFF, DataLen := 3,
          Data := [0xDE, 0xAD, 0xBE] },
        { Version := 0, PType := 0, SecondaryHdr := true, APID := 1,
          SequenceFlags := 0, SequenceCount := 0x3FFF, DataLen := 3,
          Data := [0xDE, 0xAD, 0xBE] }], none) :=
  ⟨rfl, rfl⟩

/-- C6: ReadPacket on an input with zero bytes available at the start of a
header read returns the clean end-of-stream value eof — not a decode error and
not a packet. -/
theorem C6_empty_eof : ReadPacket [] = (.error .eof, []) := rfl

/-- C7: ReadPacket on an input of exactly 5 bytes — the source exhausted
partway through the 6-byte header — returns the truncated-header error
unexpectedEOF, distinct from the clean eof condition. -/
theorem C7_truncated_header {r : List Nat} (h : r.length = 5) :
    (ReadPacket r).1 = .error .unexpectedEOF ∧ GoErr.unexpectedEOF ≠ .eof := by
  refine ⟨?_, by decide⟩
  rw [ReadPacket_short (by omega)]
  rw [if_neg (show ¬ r.length = 0 by omega)]

/-- Witness for C7 on the concrete 5-byte input 01 02 03 04 05. -/
theorem C7_witness :
    ([1, 2, 3, 4, 5] : List Nat).length = 5 ∧
      (ReadPacket [1, 2, 3, 4, 5]).1 = .error .unexpectedEOF :=
  ⟨rfl, (C7_truncated_header (r := [1, 2, 3, 4, 5]) rfl).1⟩

/-- C8: for every input stream, when the successive ReadPacket calls yield
some packets followed by a first error other than the clean eof value,
ReadAllPackets stops at that error and returns both the packets already
decoded, in stream order, and that error. -/
theorem C8_error_propagation (ps : List Packet) :
    ∀ (r : List Nat) (e : GoErr), e ≠ .eof →
      (ReadPacketsN (ps.length + 1) r).1 = ps.map Except.ok ++ [Except.error e] →
      ReadAllPackets r = (ps, some e) := by
  induction ps with
  | nil =>
    intro r e hne hseq
    rw [List.length_nil, Nat.zero_add, ReadPacketsN_succ] at hseq
    rw [ReadPacketsN_zero] at hseq
    simp only [List.map_nil, List.nil_append, List.cons.injEq] at hseq
    rcases hrp : ReadPacket r with ⟨res, rest⟩
    rw [hrp] at hseq
    have hres : res = .error e := hseq.1
    subst hres
    exact ReadAllPackets_error hrp hne
  | cons p ps ih =>
    intro r e hne hseq
    rw [List.length_cons, ReadPacketsN_succ] at hseq
    simp only [List.map_cons, List.cons_append, List.cons.injEq] at hseq
    rcases hrp : ReadPacket r with ⟨res, rest⟩
    rw [hrp] at hseq
    have hres : res = .ok p := hseq.1
    subst hres
    rw [ReadAllPackets_cons hrp, ih rest e hne hseq.2]

/-- Witness for C8: one good 7-byte frame followed by 5 stray header bytes
yields the decoded packet plus the truncated-header error. -/
theorem C8_witness :
    ReadAllPackets [0, 0, 0, 0, 0, 0, 171, 1, 2, 3, 4, 5] =
      ([mkPacket [0, 0, 0, 0, 0, 0, 171]], some .unexpectedEOF) := by
  apply C8_error_propagation [mkPacket [0, 0, 0, 0, 0, 0, 171]]
    [0, 0, 0, 0, 0, 0, 171, 1, 2, 3, 4, 5] .unexpectedEOF (by decide)
  rfl

/-- C9: on a stream that is exactly N well-formed frames back to back followed
by exhaustion, N + k successive ReadPacket calls yield the N packets in their
original stream order followed by the clean eof value on every one of the k
further calls, with the stream left exhausted (no data resurrects). -/
theorem C9_idempotence (frames : List (List Nat)) (k : Nat) :
    (∀ c ∈ frames, IsFrame c) →
      ReadPacketsN (frames.length + k) frames.flatten =
        (frames.map (fun c => Except.ok (mkPacket c)) ++
          List.replicate k (Except.error GoErr.eof), []) := by
  induction frames with
  | nil =>
    intro hf
    simpa using ReadPacketsN_nil k
  | cons c cs ih =>
    intro hf
    have hfc : IsFrame c := hf c (List.mem_cons_self c cs)
    have hstep : ReadPacket (c ++ cs.flatten) = (.ok (mkPacket c), cs.flatten) :=
      ReadPacket_frame hfc
    have hlen : (c :: cs).length + k = (cs.length + k) + 1 := by
      rw [List.length_cons]
      omega
    rw [hlen, List.flatten_cons, ReadPacketsN_succ, hstep]
    dsimp only
    rw [ih (fun x hx => hf x (List.mem_cons_of_mem c hx))]
    simp

/-- Witness for C9: one frame, then one extra call returning eof. -/
theorem C9_witness :
    ReadPacketsN ([[8, 1, 63, 255, 0, 2, 222, 173, 190]].length + 1)
        [[8, 1, 63, 255, 0, 2, 222, 173, 190]].flatten =
      ([[8, 1, 63, 255, 0, 2, 222, 173, 190]].map (fun c => Except.ok (mkPacket c)) ++
        List.replicate 1 (Except.error GoErr.eof), []) :=
  C9_idempotence [[8, 1, 63, 255, 0, 2, 222, 173, 190]] 1 (by decide)

/-- C10: every packet returned by ReadPacket satisfies Data.length = DataLen;
in particular when the wire length field is 0xFFFF the stored DataLen is 0,
Data is the empty byte sequence, and no payload bytes are consumed from the
stream beyond the 6 header bytes. -/
theorem C10_len_invariant {r r' : List Nat} {p : Packet}
    (h : ReadPacket r = (.ok p, r')) :
    p.Data.length = p.DataLen ∧
    (u16be (r.getD 4 0) (r.getD 5 0) = 65535 →
      p.DataLen = 0 ∧ p.Data = [] ∧ r' = r.drop 6) := by
  obtain ⟨h6, hd, hp, hr'⟩ := ReadPacket_ok_inv h
  subst hp
  subst hr'
  have hlen : ((r.drop 6).take (dlen r)).length = dlen r := by
    simp only [List.length_take, List.length_drop]
    omega
  refine ⟨hlen, fun hw => ?_⟩
  have h0 : dlen r = 0 := by
    unfold dlen
    rw [hw]
  refine ⟨h0, ?_, ?_⟩
  · show (r.drop 6).take (dlen r) = []
    rw [h0, List.take_zero]
  · rw [h0, List.drop_zero]

/-- Witness for C10 at the wire value 0xFFFF. -/
theorem C10_witness :
    (mkPacket [0, 0, 0, 0, 255, 255]).DataLen = 0 ∧
      (mkPacket [0, 0, 0, 0, 255, 255]).Data = [] := by
  have hok : ReadPacket [0, 0, 0, 0, 255, 255] =
      (.ok (mkPacket [0, 0, 0, 0, 255, 255]), []) := rfl
  have h := C10_len_invariant hok
  exact ⟨(h.2 (by decide)).1, (h.2 (by decide)).2.1⟩
